import Mathlib

/-!
# Extractive summarizer: `hf-server.js` (`makeSummary`) and `app.js` (`localSummarize`)

A shallow embedding of the sentence splitter, tokenizer, frequency scorer and the
style formatters, followed by the properties established about them.

Modelling conventions.

* A JavaScript string is the list of its UTF-16 code units (`JSString = List Nat`);
  `length`, `slice`, `charAt` and the non-unicode regular expressions of the source all
  work on code units.
* `toLowerCase` / `toUpperCase` depend on the Unicode tables of the JavaScript runtime.
  They are taken as a parameter (`CaseMap`); `asciiCase` is the instance used for
  concrete evaluation, and it agrees with the runtime on ASCII text.
* Numbers are IEEE-754 doubles. The sums `score` and the counts are integer-valued, so
  they are kept as natural numbers with the rounding to 53 significant bits applied
  (`roundInt53`, the identity below `2^53`). `Math.sqrt` and `/` are rounded to nearest,
  ties to even, by exact integer arithmetic (`sqrtDouble`, `divDouble`); a finite
  non-negative double is kept as the dyadic fraction `num / 2^shift` (`Dbl`). An entry
  `Scored` keeps the sum and the word count, and its field `score` of the source is the
  double `Scored.score`.
-/

set_option maxRecDepth 100000

namespace Summarizer

/-- A JavaScript string, as its list of UTF-16 code units. -/
abbrev JSString := List Nat

/-- UTF-16 encoding of one Unicode scalar value. -/
def utf16 (c : Char) : List Nat :=
  if c.toNat < 65536 then [c.toNat]
  else [55296 + (c.toNat - 65536) / 1024, 56320 + (c.toNat - 65536) % 1024]

/-- The JavaScript string denoted by a string literal. -/
def js (s : String) : JSString := s.toList.flatMap utf16

/-- The runtime's `String.prototype.toLowerCase` and `String.prototype.toUpperCase`. -/
structure CaseMap where
  toLowerCase : JSString → JSString
  toUpperCase : JSString → JSString

/-- Case mapping restricted to the ASCII letters. -/
def asciiCase : CaseMap where
  toLowerCase := List.map (fun c => if 65 ≤ c ∧ c ≤ 90 then c + 32 else c)
  toUpperCase := List.map (fun c => if 97 ≤ c ∧ c ≤ 122 then c - 32 else c)

/-- The regular-expression class `\s` (also the set removed by `trim`): WhiteSpace and
LineTerminator code units. -/
def isSpace (c : Nat) : Bool :=
  c == 9 || c == 10 || c == 11 || c == 12 || c == 13 || c == 32 || c == 160 ||
  c == 5760 || (8192 ≤ c && c ≤ 8202) || c == 8232 || c == 8233 || c == 8239 ||
  c == 8287 || c == 12288 || c == 65279

/-- The class `[.!?]` (sentence-terminal punctuation). -/
def isTerminal (c : Nat) : Bool := c == 46 || c == 33 || c == 63

/-- The class `[,.!?]`. -/
def isPunct (c : Nat) : Bool := c == 44 || c == 46 || c == 33 || c == 63

/-- The class `[a-z0-9\s']`. -/
def isTokenChar (c : Nat) : Bool :=
  (97 ≤ c && c ≤ 122) || (48 ≤ c && c ≤ 57) || isSpace c || c == 39

/-- `String.prototype.trim`. -/
def trim (s : JSString) : JSString :=
  ((s.dropWhile isSpace).reverse.dropWhile isSpace).reverse

/-- `Array.prototype.join`. -/
def join (sep : JSString) : List JSString → JSString
  | [] => []
  | [x] => x
  | x :: y :: rest => x ++ sep ++ join sep (y :: rest)

/-- Push a code unit onto the first piece of a split in progress. -/
def consHead (c : Nat) : List JSString → List JSString
  | [] => [[c]]
  | p :: ps => (c :: p) :: ps

/-- `s.replace(/\n+/g, ' ')`: every maximal run of line feeds becomes one space (the
space is emitted at the last line feed of the run). -/
def replaceNewlines : JSString → JSString
  | [] => []
  | c :: rest =>
    if c == 10 then
      match rest with
      | d :: _ => if d == 10 then replaceNewlines rest else 32 :: replaceNewlines rest
      | [] => [32]
    else c :: replaceNewlines rest

/-- `s.split(/(?<=[.!?])\s+/)`: a separator is a maximal whitespace run that directly
follows a terminal mark. `prevTerm` says the previous code unit is a terminal mark,
`inSep` that the scan is inside a separator. -/
def splitAfterTerminal (prevTerm inSep : Bool) : JSString → List JSString
  | [] => [[]]
  | c :: rest =>
    if isSpace c then
      if inSep then splitAfterTerminal false true rest
      else if prevTerm then [] :: splitAfterTerminal false true rest
      else consHead c (splitAfterTerminal false false rest)
    else consHead c (splitAfterTerminal (isTerminal c) false rest)

/-- Source `splitSentences` (identical in `hf-server.js` and `app.js`). -/
def splitSentences (text : JSString) : List JSString :=
  ((splitAfterTerminal false false (replaceNewlines text)).map trim).filter (fun s => s != [])

/-- `s.split(/\s+/)`: a separator is a maximal whitespace run. -/
def splitSpaces (inSep : Bool) : JSString → List JSString
  | [] => [[]]
  | c :: rest =>
    if isSpace c then
      if inSep then splitSpaces true rest else [] :: splitSpaces true rest
    else consHead c (splitSpaces false rest)

/-- Source `tokenizeWords` (identical in `hf-server.js` and `app.js`). -/
def tokenizeWords (cm : CaseMap) (text : JSString) : List JSString :=
  (splitSpaces false ((cm.toLowerCase text).map (fun c => if isTokenChar c then c else 32))).filter
    (fun s => s != [])

/-- Source constant `STOPWORDS`. -/
def STOPWORDS : List JSString :=
  ["a","an","and","are","as","at","be","by","for","from","in","is","it","of","on","or","that",
   "the","this","to","was","with","will","we","you","i","they","he","she","but","if","so","than",
   "then","their","there","these","those"].map js


/-- Floor of the binary logarithm (`0` at `0`), by repeated halving. -/
def ilog2Aux : Nat → Nat → Nat
  | 0, _ => 0
  | fuel + 1, n => if n < 2 then 0 else ilog2Aux fuel (n / 2) + 1

/-- Floor of the binary logarithm of `n`. -/
def ilog2 (n : Nat) : Nat := ilog2Aux n n

/-- Integer square root, one bit at a time from bit `i - 1` down. -/
def isqrtAux (n : Nat) : Nat → Nat → Nat
  | 0, res => res
  | i + 1, res =>
    if (res + 2 ^ i) * (res + 2 ^ i) ≤ n then isqrtAux n i (res + 2 ^ i) else isqrtAux n i res

/-- Floor of the square root of `n`. -/
def isqrt (n : Nat) : Nat := isqrtAux n (ilog2 n / 2 + 1) 0

/-- The double nearest to the integer `n` (ties to even), as an integer: the result of an
addition of integer-valued doubles whose exact sum is `n`. -/
def roundInt53 (n : Nat) : Nat :=
  if n < 2 ^ 53 then n
  else
    let sh := ilog2 n - 52
    let q := n / 2 ^ sh
    let rem := n % 2 ^ sh
    let half := 2 ^ (sh - 1)
    (if half < rem ∨ (rem = half ∧ q % 2 = 1) then q + 1 else q) * 2 ^ sh

/-- A finite non-negative double, as the dyadic fraction `num / 2^shift`. -/
structure Dbl where
  num : Nat
  shift : Nat
deriving DecidableEq, Repr

/-- The order of doubles: `a ≤ b`. -/
def Dbl.le (a b : Dbl) : Bool := decide (a.num * 2 ^ b.shift ≤ b.num * 2 ^ a.shift)

/-- `Math.sqrt(w)` for an integer `w` (below `2^106`, which covers every array length):
the 53-bit significand is the integer square root of `w · 4^k`, rounded to nearest; a
square root of an integer is never half-way between two doubles. -/
def sqrtDouble (w : Nat) : Dbl :=
  if w = 0 then ⟨0, 0⟩
  else
    let k := (105 - ilog2 w) / 2
    let x := w * 4 ^ k
    let r := isqrt x
    ⟨if x ≤ r * r + r then r else r + 1, k⟩

/-- The double `n / d` for an integer-valued double `n` and a double `d`: the exact quotient
`n · 2^d.shift / d.num` is scaled to a 53-bit integer part and rounded to nearest, ties to
even. (A zero divisor does not occur: the word count is at least 1.) -/
def divDouble (n : Nat) (d : Dbl) : Dbl :=
  let p := n * 2 ^ d.shift
  let q := d.num
  if p = 0 ∨ q = 0 then ⟨0, 0⟩
  else
    let a := (ilog2 q + 52) - ilog2 p
    let b := ilog2 p - (ilog2 q + 52)
    let n0 := p * 2 ^ a
    let d0 := q * 2 ^ b
    let adj := if n0 < 2 ^ 52 * d0 then 1 else 0
    let n1 := n0 * 2 ^ adj
    let m := n1 / d0
    let rem := n1 % d0
    let m1 := if d0 < 2 * rem ∨ (2 * rem = d0 ∧ m % 2 = 1) then m + 1 else m
    ⟨m1 * 2 ^ b, a + adj⟩

/-- One entry of the array returned by `scoreSentences`: the sentence `s`, the sum `num` of
the frequencies of its tokens and its word count `words`; the field `score` of the source
is `Scored.score`. -/
structure Scored where
  s : JSString
  num : Nat
  words : Nat
deriving DecidableEq, Repr

/-- The field `score: score / Math.sqrt(words)` of an entry. -/
def Scored.score (x : Scored) : Dbl := divDouble x.num (sqrtDouble x.words)

/-- The statement `freq[w] = (freq[w] || 0) + 1` on the frequency table. -/
def bump (w : JSString) : List (JSString × Nat) → List (JSString × Nat)
  | [] => [(w, 1)]
  | (k, v) :: rest => if k = w then (k, roundInt53 (v + 1)) :: rest else (k, v) :: bump w rest

/-- The read `freq[w]`, with `0` for an absent key (`undefined` is falsy and is never added). -/
def freqOf (freq : List (JSString × Nat)) (w : JSString) : Nat :=
  match freq.find? (fun kv => kv.1 == w) with
  | some kv => kv.2
  | none => 0

/-- The first loop of `scoreSentences`: the frequency table of the non-stopword tokens of
all sentences. -/
def buildFreq (cm : CaseMap) (sentences : List JSString) : List (JSString × Nat) :=
  sentences.foldl
    (fun freq s => (tokenizeWords cm s).foldl
      (fun freq w => if STOPWORDS.contains w then freq else bump w freq) freq) []

/-- Source `scoreSentences` (identical in `hf-server.js` and `app.js`). -/
def scoreSentences (cm : CaseMap) (sentences : List JSString) : List Scored :=
  let freq := buildFreq cm sentences
  sentences.map (fun s =>
    let score := (tokenizeWords cm s).foldl
      (fun score w => if freqOf freq w ≠ 0 then roundInt53 (score + freqOf freq w) else score) 0
    let words := if (tokenizeWords cm s).length = 0 then 1 else (tokenizeWords cm s).length
    { s := s, num := score, words := words })

/-- The comparator `(a, b) => b.score - a.score` is not positive, that is `b.score ≤ a.score`
(a difference of two finite doubles has the sign of the exact difference). -/
def scoreGe (a b : Scored) : Bool := Dbl.le b.score a.score

/-- The array `scored.slice().sort((a,b) => b.score - a.score)`; `Array.prototype.sort` is
stable, so entries of equal score keep their order. -/
def sortByScore (scored : List Scored) : List Scored :=
  scored.insertionSort (fun a b => scoreGe a b = true)

/-- `Array.prototype.indexOf`: the first position of `x`, or `-1`. -/
def indexOf (xs : List JSString) (x : JSString) : Int :=
  if x ∈ xs then (xs.indexOf x : Int) else -1

/-- `s.replace(/\s+/g, ' ')`: every maximal whitespace run becomes one space (emitted at
the last code unit of the run). -/
def collapseSpaces : JSString → JSString
  | [] => []
  | c :: rest =>
    if isSpace c then
      match rest with
      | d :: _ => if isSpace d then collapseSpaces rest else 32 :: collapseSpaces rest
      | [] => [32]
    else c :: collapseSpaces rest

/-- The regular expression `\s+([,.!?])` matches at a whitespace code unit followed by
`rest` exactly when the whitespace run continuing into `rest` ends at one of `, . ! ?`. -/
def punctAfterSpaces (rest : JSString) : Bool :=
  match rest.dropWhile isSpace with
  | p :: _ => isPunct p
  | [] => false

/-- `s.replace(/\s+([,.!?])/g, '$1')`: a whitespace run directly before one of `, . ! ?`
is deleted. -/
def dropSpaceBeforePunct : JSString → JSString
  | [] => []
  | c :: rest =>
    if isSpace c && punctAfterSpaces rest then dropSpaceBeforePunct rest
    else c :: dropSpaceBeforePunct rest

/-- Inner function `clean` of `makeSummary`. -/
def clean (s : JSString) : JSString :=
  dropSpaceBeforePunct (collapseSpaces (trim s))

/-- `s.replace(/^["']/, '')`. -/
def stripLeadingQuote : JSString → JSString
  | [] => []
  | c :: rest => if c == 34 || c == 39 then rest else c :: rest

/-- Inner function `sentenceToLine` of `makeSummary`. -/
def sentenceToLine (cm : CaseMap) (s : JSString) : JSString :=
  let t := clean s
  cm.toUpperCase (t.take 1) ++ stripLeadingQuote (t.drop 1)

/-- Inner function `topSentences` of `makeSummary`, with the captured `sentences` and
`topByScore` as arguments. -/
def topSentences (sentences : List JSString) (topByScore : List Scored) (n : Nat) :
    List JSString :=
  let chosen := (topByScore.take n).insertionSort
    (fun a b => indexOf sentences a.s ≤ indexOf sentences b.s)
  chosen.map (fun x => x.s)

/-- The count chosen from `lengthKey`, before clamping. -/
def requestedCount (lengthKey : JSString) : Nat :=
  if lengthKey = js "short" then 1 else if lengthKey = js "long" then 6 else 3

/-- The executive bullet of one sentence. -/
def executiveItem (cm : CaseMap) (s : JSString) : JSString :=
  let line := sentenceToLine cm s
  let line := if line.length > 120 then trim (line.take 117) ++ js "…" else line
  js "• " ++ line

/-- Source constant `actionKeywords` of the action branch. -/
def actionKeywords : List JSString :=
  ["should","will","need","plan","recommend","follow","action","next","implement","assign",
   "review","consider","start"].map js

/-- `String.prototype.includes`: `k` occurs in `s` as a contiguous substring. -/
def includes (s k : JSString) : Bool := s.tails.any (fun t => k.isPrefixOf t)

/-- `s.replace(/\.$/, '')`: a full stop that ends the string is removed. -/
def dropFinalDot (s : JSString) : JSString :=
  if s.getLast? = some 46 then s.dropLast else s

/-- The class `\w` of a non-unicode regular expression. -/
def isWordChar (c : Nat) : Bool :=
  (97 ≤ c && c ≤ 122) || (65 ≤ c && c ≤ 90) || (48 ≤ c && c ≤ 57) || c == 95

/-- Canonicalization of a code unit under the `i` flag, as far as it can meet the
patterns of the source (ASCII letters and the space): an ASCII letter matches its two
cases and nothing else. -/
def foldCase (c : Nat) : Nat := if 97 ≤ c ∧ c ≤ 122 then c - 32 else c

/-- The assertion `\b` at position `i` of `s`. -/
def wordBoundary (s : JSString) (i : Nat) : Bool :=
  let before := if i = 0 then false else (s.get? (i - 1)).any isWordChar
  let after := (s.get? i).any isWordChar
  before != after

/-- The test `/\b(w1|w2|...)\b/i.test(s)` for literal alternatives. -/
def testWord (alts : List JSString) (s : JSString) : Bool :=
  (List.range (s.length + 1)).any (fun i =>
    wordBoundary s i &&
    alts.any (fun w =>
      ((s.drop i).take w.length).map foldCase == w.map foldCase &&
      wordBoundary s (i + w.length)))

/-- The body of the loop over `stepBase` in the action branch: the step pushed for `s`. -/
def nextStep (cm : CaseMap) (s : JSString) : JSString :=
  let short := dropFinalDot (sentenceToLine cm s)
  if testWord (["review","audit","check","inspect","verify"].map js) short then
    js "- Review and confirm: " ++ short ++ js "."
  else if testWord (["plan","schedule","set up","organize"].map js) short then
    js "- Schedule a follow-up to: " ++ short ++ js "."
  else if testWord (["assign","delegate","appoint"].map js) short then
    js "- Assign ownership for: " ++ short ++ js "."
  else js "- Consider: " ++ short ++ js "."

/-- `Array.from(new Set(xs))`: the distinct elements, each at its first occurrence. -/
def uniq : List JSString → List JSString
  | [] => []
  | x :: xs => x :: (uniq xs).filter (fun y => y != x)

/-- The concise branch of `makeSummary` from `parts` on. With an empty `parts`, `parts[0]`
is `undefined` and `sentenceToLine(undefined)` throws a `TypeError` (`none`). -/
def conciseJoin (cm : CaseMap) : List JSString → Option JSString
  | [] => none
  | [p] => some (sentenceToLine cm p)
  | p :: rest =>
    let first := sentenceToLine cm p
    let follow := join (js " ") (rest.map (sentenceToLine cm))
    some (first ++ (if follow ≠ [] then js " " ++ follow else []))

/-- Source `makeSummary` of `hf-server.js`. An argument `none` is `undefined`, which
selects the default parameter value; the result `none` is a thrown `TypeError`. -/
def makeSummary (cm : CaseMap) (text : JSString) (style lengthKey : Option JSString) :
    Option JSString :=
  let style := style.getD (js "concise")
  let lengthKey := lengthKey.getD (js "medium")
  let sentences := splitSentences text
  if sentences.length = 0 then some [] else
  let count := min (max 1 (requestedCount lengthKey)) sentences.length
  let topByScore := sortByScore (scoreSentences cm sentences)
  if style = js "concise" then
    let n := min count (max 1 count)
    conciseJoin cm (topSentences sentences topByScore n)
  else if style = js "executive" then
    some (join (js "\n") ((topSentences sentences topByScore count).map (executiveItem cm)))
  else if style = js "action" then
    let candidates := topByScore.filter (fun t =>
      actionKeywords.any (fun k => includes (cm.toLowerCase t.s) k))
    let seeds := (if candidates.length ≠ 0 then candidates
      else topByScore.take (max 1 count)).take (max 1 count)
    let actionBullets := seeds.map (fun x => js "- " ++ sentenceToLine cm x.s)
    let stepBase := (topByScore.take (min 3 sentences.length)).map (fun x => x.s)
    let nextSteps := stepBase.map (nextStep cm)
    let uniqSteps := (uniq nextSteps).take 3
    some (join (js "\n") (actionBullets ++ [[], js "Suggested next steps:"] ++ uniqSteps))
  else if style = js "detailed" then
    let desired := min 5 (max 3 count)
    some (join (js " ") ((topSentences sentences topByScore desired).map (sentenceToLine cm)))
  else
    some (join (js " ") ((topSentences sentences topByScore count).map (sentenceToLine cm)))

/-- Source `localSummarize` of `app.js` (its `splitSentences`, `tokenizeWords` and
`scoreSentences` are the same functions as the server's). -/
def localSummarize (cm : CaseMap) (text : JSString) : JSString :=
  let sentences := splitSentences text
  if sentences.length = 0 then [] else
  let scored := scoreSentences cm sentences
  let best := ((sortByScore scored).take 3).map (fun x => x.s)
  join (js " ") best

/-- The text of the executive counterexample: 116 letters `x`, a space, `yyyy.` -/
def longWord : JSString := List.replicate 116 120 ++ js " yyyy."

/-- Shape of a cleaned string after each whitespace code unit: it is a plain space and the
code unit after it exists, is not whitespace and is not in `bad`. -/
def Spaced (bad : Nat → Bool) : JSString → Prop
  | [] => True
  | c :: rest =>
    (isSpace c = true → c = 32 ∧ ∃ d r, rest = d :: r ∧ isSpace d = false ∧ bad d = false) ∧
      Spaced bad rest

/-- The first code unit, if any, is not whitespace. -/
def NoLead (t : JSString) : Prop := ∀ c, t.head? = some c → isSpace c = false

/-! ## Auxiliary facts -/

theorem scoreSentences_length (cm : CaseMap) (sentences : List JSString) :
    (scoreSentences cm sentences).length = sentences.length := by
  simp [scoreSentences]

theorem sortByScore_length (scored : List Scored) :
    (sortByScore scored).length = scored.length := by
  simp [sortByScore, List.length_insertionSort]

theorem ranked_length (cm : CaseMap) (sentences : List JSString) :
    (sortByScore (scoreSentences cm sentences)).length = sentences.length := by
  rw [sortByScore_length, scoreSentences_length]

theorem topSentences_length (sentences : List JSString) (topByScore : List Scored) (n : Nat) :
    (topSentences sentences topByScore n).length = min n topByScore.length := by
  simp [topSentences, List.length_insertionSort, List.length_take]

theorem requestedCount_eq (lengthKey : Option JSString) :
    requestedCount (lengthKey.getD (js "medium")) =
      if lengthKey = some (js "short") then 1
      else if lengthKey = some (js "long") then 6 else 3 := by
  cases lengthKey with
  | none => decide
  | some k =>
    simp only [Option.getD_some, requestedCount, Option.some.injEq]

theorem requestedCount_pos (lengthKey : JSString) : 1 ≤ requestedCount lengthKey := by
  unfold requestedCount
  split
  · exact le_refl 1
  · split <;> decide

/-- The clamped count of `makeSummary` is `min p total`. -/
theorem count_eq (lengthKey : Option JSString) (total : Nat) :
    min (max 1 (requestedCount (lengthKey.getD (js "medium")))) total =
      min (if lengthKey = some (js "short") then 1
        else if lengthKey = some (js "long") then 6 else 3) total := by
  rw [max_eq_right (requestedCount_pos _), requestedCount_eq]

theorem dropWhile_isSpace_eq_self {t : JSString}
    (h : ∀ c, t.head? = some c → isSpace c = false) : t.dropWhile isSpace = t := by
  cases t with
  | nil => rfl
  | cons c rest =>
    have hc : isSpace c = false := h c rfl
    simp [List.dropWhile_cons, hc]

/-- `trim` leaves a string unchanged when neither its first nor its last code unit is
whitespace. -/
theorem trim_eq_self {t : JSString}
    (h0 : ∀ c, t.head? = some c → isSpace c = false)
    (h1 : ∀ c, t.getLast? = some c → isSpace c = false) : trim t = t := by
  unfold trim
  rw [dropWhile_isSpace_eq_self h0, dropWhile_isSpace_eq_self, List.reverse_reverse]
  intro c hc
  rw [List.head?_reverse] at hc
  exact h1 c hc

theorem trim_length_le (t : JSString) : (trim t).length ≤ t.length := by
  unfold trim
  rw [List.length_reverse]
  calc ((t.dropWhile isSpace).reverse.dropWhile isSpace).length
      ≤ (t.dropWhile isSpace).reverse.length := (List.dropWhile_sublist _).length_le
    _ = (t.dropWhile isSpace).length := List.length_reverse _
    _ ≤ t.length := (List.dropWhile_sublist _).length_le

theorem splitSentences_ne_nil {text s : JSString} (h : s ∈ splitSentences text) : s ≠ [] := by
  unfold splitSentences at h
  have h2 := (List.mem_filter.mp h).2
  simpa using h2

theorem ranked_mem {cm : CaseMap} {sentences : List JSString} {x : Scored}
    (h : x ∈ sortByScore (scoreSentences cm sentences)) : x.s ∈ sentences := by
  unfold sortByScore at h
  have h2 : x ∈ scoreSentences cm sentences := (List.perm_insertionSort _ _).mem_iff.mp h
  unfold scoreSentences at h2
  obtain ⟨s, hs, rfl⟩ := List.mem_map.mp h2
  exact hs

theorem join_cons_ne_nil (sep q : JSString) (rest : List JSString) (h : q ≠ []) :
    join sep (q :: rest) ≠ [] := by
  cases rest with
  | nil => simpa [join] using h
  | cons r rest2 => simp [join, h]

/-- `conciseJoin` on lines that are non-empty is the plain join by a space. -/
theorem conciseJoin_eq_join (cm : CaseMap) (parts : List JSString) (hne : parts ≠ [])
    (hfix : ∀ b ∈ parts, sentenceToLine cm b = b) (hnil : ∀ b ∈ parts, b ≠ []) :
    conciseJoin cm parts = some (join (js " ") parts) := by
  have hmap : ∀ l : List JSString, (∀ b ∈ l, sentenceToLine cm b = b) →
      l.map (sentenceToLine cm) = l := by
    intro l hl
    calc l.map (sentenceToLine cm) = l.map id := List.map_congr_left hl
      _ = l := List.map_id l
  match parts, hne, hfix, hnil with
  | [p], _, hfix, _ =>
    simp [conciseJoin, join, hfix p (List.mem_singleton.mpr rfl)]
  | p :: q :: rest, _, hfix, hnil =>
    have hp : sentenceToLine cm p = p := hfix p (List.mem_cons_self _ _)
    have hrest : (q :: rest).map (sentenceToLine cm) = q :: rest :=
      hmap _ (fun b hb => hfix b (List.mem_cons_of_mem _ hb))
    have hfollow : join (js " ") (q :: rest) ≠ [] :=
      join_cons_ne_nil _ _ _ (hnil q (List.mem_cons_of_mem _ (List.mem_cons_self _ _)))
    simp only [conciseJoin, hrest, hp, if_pos hfollow, join, List.append_assoc]

/-- When the first `n` ranked entries are already in index order, `topSentences` returns
their sentences unchanged. -/
theorem topSentences_of_sorted (sentences : List JSString) (topByScore : List Scored) (n : Nat)
    (h : (topByScore.take n).Sorted
      (fun a b => indexOf sentences a.s ≤ indexOf sentences b.s)) :
    topSentences sentences topByScore n = (topByScore.take n).map (fun x => x.s) := by
  unfold topSentences
  rw [List.Sorted.insertionSort_eq h]

theorem take_min_length {α : Type} (l : List α) (n : Nat) :
    l.take (min n l.length) = l.take n := by
  rcases le_total n l.length with h | h
  · rw [min_eq_left h]
  · rw [min_eq_right h, List.take_of_length_le h, List.take_of_length_le (le_refl _)]

theorem head_dropWhile_isSpace (s : JSString) : NoLead (s.dropWhile isSpace) := by
  intro c hc
  have h := List.head?_dropWhile_not isSpace s
  rw [hc] at h
  exact h

theorem trim_noLead (s : JSString) : NoLead (trim s) := by
  intro c hc
  unfold trim at hc
  have hsuf : (s.dropWhile isSpace).reverse.dropWhile isSpace <:+ (s.dropWhile isSpace).reverse :=
    List.dropWhile_suffix isSpace
  have hpre : ((s.dropWhile isSpace).reverse.dropWhile isSpace).reverse <+: s.dropWhile isSpace := by
    have := List.reverse_prefix.mpr hsuf
    rwa [List.reverse_reverse] at this
  obtain ⟨t, ht⟩ := hpre
  cases hy : ((s.dropWhile isSpace).reverse.dropWhile isSpace).reverse with
  | nil => rw [hy] at hc; simp at hc
  | cons e y =>
    rw [hy] at hc ht
    have hec : e = c := by simpa using hc
    apply head_dropWhile_isSpace s c
    rw [← ht, ← hec]
    rfl

theorem trim_last (s : JSString) : ∀ c, (trim s).getLast? = some c → isSpace c = false := by
  intro c hc
  unfold trim at hc
  rw [List.getLast?_reverse] at hc
  exact head_dropWhile_isSpace _ c hc

theorem collapseSpaces_cons_of_not (c : Nat) (rest : JSString) (hc : isSpace c = false) :
    collapseSpaces (c :: rest) = c :: collapseSpaces rest := by
  simp [collapseSpaces, hc]

theorem dropSpaceBeforePunct_cons_of_not (c : Nat) (rest : JSString) (hc : isSpace c = false) :
    dropSpaceBeforePunct (c :: rest) = c :: dropSpaceBeforePunct rest := by
  simp [dropSpaceBeforePunct, hc]

theorem punctAfterSpaces_cons_of_not (d : Nat) (r : JSString) (hd : isSpace d = false) :
    punctAfterSpaces (d :: r) = isPunct d := by
  simp [punctAfterSpaces, List.dropWhile_cons, hd]

theorem collapseSpaces_noLead {a : JSString} (h : NoLead a) : NoLead (collapseSpaces a) := by
  cases a with
  | nil => intro c hc; simp [collapseSpaces] at hc
  | cons e rest =>
    have he : isSpace e = false := h e rfl
    rw [collapseSpaces_cons_of_not e rest he]
    intro c hc
    have : e = c := by simpa using hc
    rw [← this]; exact he

theorem dropSpaceBeforePunct_noLead {a : JSString} (h : NoLead a) :
    NoLead (dropSpaceBeforePunct a) := by
  cases a with
  | nil => intro c hc; simp [dropSpaceBeforePunct] at hc
  | cons e rest =>
    have he : isSpace e = false := h e rfl
    rw [dropSpaceBeforePunct_cons_of_not e rest he]
    intro c hc
    have : e = c := by simpa using hc
    rw [← this]; exact he

/-- After `collapseSpaces`, a string that does not end in whitespace has only single plain
spaces, each followed by a code unit that is not whitespace. -/
theorem collapseSpaces_spaced : ∀ a : JSString,
    (∀ c, a.getLast? = some c → isSpace c = false) →
    Spaced (fun _ => false) (collapseSpaces a)
  | [], _ => by simp [collapseSpaces, Spaced]
  | [c], hlast => by
    have hc : isSpace c = false := hlast c rfl
    simp [collapseSpaces, Spaced, hc]
  | c :: d :: r, hlast => by
    have hlast2 : ∀ x, (d :: r).getLast? = some x → isSpace x = false := by
      intro x hx
      exact hlast x (by rw [List.getLast?_cons_cons]; exact hx)
    have ih := collapseSpaces_spaced (d :: r) hlast2
    by_cases hc : isSpace c = true
    · by_cases hd : isSpace d = true
      · have : collapseSpaces (c :: d :: r) = collapseSpaces (d :: r) := by
          simp [collapseSpaces, hc, hd]
        rw [this]; exact ih
      · have hd2 : isSpace d = false := by simpa using hd
        have : collapseSpaces (c :: d :: r) = 32 :: collapseSpaces (d :: r) := by
          simp [collapseSpaces, hc, hd2]
        rw [this]
        refine ⟨fun _ => ⟨rfl, d, collapseSpaces r, ?_, hd2, rfl⟩, ih⟩
        exact collapseSpaces_cons_of_not d r hd2
    · have hc2 : isSpace c = false := by simpa using hc
      rw [collapseSpaces_cons_of_not c _ hc2]
      exact ⟨fun h => absurd h hc, ih⟩

/-- Deleting the spaces before `, . ! ?` leaves every remaining space followed by a code
unit that is neither whitespace nor one of `, . ! ?`. -/
theorem dropSpaceBeforePunct_spaced : ∀ b : JSString,
    Spaced (fun _ => false) b → Spaced isPunct (dropSpaceBeforePunct b)
  | [], _ => by simp [dropSpaceBeforePunct, Spaced]
  | c :: rest, h => by
    obtain ⟨hsp, hrest⟩ := h
    have ih := dropSpaceBeforePunct_spaced rest hrest
    by_cases hc : isSpace c = true
    · obtain ⟨h32, d, r, hdr, hd, -⟩ := hsp hc
      subst hdr
      have hpa := punctAfterSpaces_cons_of_not d r hd
      by_cases hp : isPunct d = true
      · have : dropSpaceBeforePunct (c :: d :: r) = dropSpaceBeforePunct (d :: r) := by
          simp [dropSpaceBeforePunct, hc, hpa, hp]
        rw [this]; exact ih
      · have hp2 : isPunct d = false := by simpa using hp
        have : dropSpaceBeforePunct (c :: d :: r) = c :: dropSpaceBeforePunct (d :: r) := by
          simp [dropSpaceBeforePunct, hc, hpa, hp2]
        rw [this]
        refine ⟨fun _ => ⟨h32, d, dropSpaceBeforePunct r, ?_, hd, hp2⟩, ih⟩
        exact dropSpaceBeforePunct_cons_of_not d r hd
    · have hc2 : isSpace c = false := by simpa using hc
      rw [dropSpaceBeforePunct_cons_of_not c _ hc2]
      exact ⟨fun h => absurd h hc, ih⟩

theorem collapseSpaces_of_spaced (bad : Nat → Bool) : ∀ t : JSString,
    Spaced bad t → collapseSpaces t = t
  | [], _ => rfl
  | c :: rest, h => by
    obtain ⟨hsp, hrest⟩ := h
    have ih := collapseSpaces_of_spaced bad rest hrest
    by_cases hc : isSpace c = true
    · obtain ⟨h32, d, r, hdr, hd, -⟩ := hsp hc
      subst hdr
      have : collapseSpaces (c :: d :: r) = 32 :: collapseSpaces (d :: r) := by
        simp [collapseSpaces, hc, hd]
      rw [this, ih, h32]
    · have hc2 : isSpace c = false := by simpa using hc
      rw [collapseSpaces_cons_of_not c _ hc2, ih]

theorem dropSpaceBeforePunct_of_spaced : ∀ t : JSString,
    Spaced isPunct t → dropSpaceBeforePunct t = t
  | [], _ => rfl
  | c :: rest, h => by
    obtain ⟨hsp, hrest⟩ := h
    have ih := dropSpaceBeforePunct_of_spaced rest hrest
    by_cases hc : isSpace c = true
    · obtain ⟨-, d, r, hdr, hd, hp⟩ := hsp hc
      subst hdr
      have hpa := punctAfterSpaces_cons_of_not d r hd
      have : dropSpaceBeforePunct (c :: d :: r) = c :: dropSpaceBeforePunct (d :: r) := by
        simp [dropSpaceBeforePunct, hc, hpa, hp]
      rw [this, ih]
    · have hc2 : isSpace c = false := by simpa using hc
      rw [dropSpaceBeforePunct_cons_of_not c _ hc2, ih]

theorem spaced_last (bad : Nat → Bool) : ∀ t : JSString,
    Spaced bad t → ∀ c, t.getLast? = some c → isSpace c = false
  | [], _, c, hc => by simp at hc
  | [e], h, c, hc => by
    have hec : e = c := by simpa using hc
    subst hec
    by_contra hsp
    have hsp2 : isSpace e = true := by simpa using hsp
    obtain ⟨-, d, r, hdr, -, -⟩ := h.1 hsp2
    simp at hdr
  | e :: d :: r, h, c, hc => by
    rw [List.getLast?_cons_cons] at hc
    exact spaced_last bad (d :: r) h.2 c hc

/-- The result of `clean` has no leading whitespace and only single spaces, none of them
before `, . ! ?` or at the end. -/
theorem clean_shape (s : JSString) : NoLead (clean s) ∧ Spaced isPunct (clean s) := by
  unfold clean
  exact ⟨dropSpaceBeforePunct_noLead (collapseSpaces_noLead (trim_noLead s)),
    dropSpaceBeforePunct_spaced _ (collapseSpaces_spaced _ (trim_last s))⟩

theorem uniq_nodup : ∀ l : List JSString, (uniq l).Nodup
  | [] => List.nodup_nil
  | x :: xs => by
    unfold uniq
    refine List.nodup_cons.mpr ⟨?_, (uniq_nodup xs).filter _⟩
    intro hx
    have := (List.mem_filter.mp hx).2
    simp at this

theorem uniq_length_le : ∀ l : List JSString, (uniq l).length ≤ l.length
  | [] => le_refl 0
  | x :: xs => by
    unfold uniq
    rw [List.length_cons, List.length_cons]
    exact Nat.succ_le_succ (le_trans (List.length_filter_le _ _) (uniq_length_le xs))

theorem uniq_ne_nil {l : List JSString} (h : l ≠ []) : uniq l ≠ [] := by
  cases l with
  | nil => exact absurd rfl h
  | cons x xs => simp [uniq]

/-- The scores `2 / Math.sqrt(2)` and `6 / Math.sqrt(18)` are equal as real numbers and
differ as doubles (`1.414213562373095 < 1.4142135623730951`), so the longer sentence of this
text is ranked first although it comes second in the document. -/
theorem double_rounding_breaks_tie :
    (divDouble 2 (sqrtDouble 2) = ⟨6369051672525772, 52⟩ ∧
      divDouble 6 (sqrtDouble 18) = ⟨6369051672525773, 52⟩) ∧
    (sortByScore (scoreSentences asciiCase (splitSentences (js
        "Budget approved. It is so that we are there by then and the teams ship code fast for now today.")))).map
      (fun x => (x.s, x.num, x.words)) =
      [(js "It is so that we are there by then and the teams ship code fast for now today.", 6, 18),
        (js "Budget approved.", 2, 2)] ∧
    localSummarize asciiCase (js
        "Budget approved. It is so that we are there by then and the teams ship code fast for now today.")
      = js "It is so that we are there by then and the teams ship code fast for now today. Budget approved." ∧
    makeSummary asciiCase (js
        "Budget approved. It is so that we are there by then and the teams ship code fast for now today.")
        (some (js "action")) (some (js "short"))
      = some (js "- It is so that we are there by then and the teams ship code fast for now today.\n\nSuggested next steps:\n- Consider: It is so that we are there by then and the teams ship code fast for now today.\n- Consider: Budget approved.") := by
  decide

/-! ## Claims -/

/-- C9: when `splitSentences` extracts no sentence from the text, `makeSummary` returns the
empty string (and does not throw) for every style and every length key, and
`localSummarize` returns the empty string as well. -/
theorem empty_input_law (cm : CaseMap) (text : JSString) (style lengthKey : Option JSString)
    (h : splitSentences text = []) :
    makeSummary cm text style lengthKey = some [] ∧ localSummarize cm text = [] := by
  constructor
  · simp [makeSummary, h]
  · simp [localSummarize, h]

/-- C9 witness: a whitespace-only text (spaces, a tab and line feeds) has no sentence. -/
theorem empty_input_law_witness :
    splitSentences (js "  \t\n\n ") = [] ∧
    (makeSummary asciiCase (js "  \t\n\n ") (some (js "action")) (some (js "long")) = some [] ∧
      localSummarize asciiCase (js "  \t\n\n ") = []) :=
  ⟨by decide, empty_input_law asciiCase (js "  \t\n\n ") (some (js "action")) (some (js "long"))
    (by decide)⟩

/-- C3: with at least one sentence, the styles concise (also the default of a missing
style), executive and every unrecognized style render exactly `min p total` selected
sentences, where `p` is 1 for `short`, 6 for `long` and 3 for any other or missing length
key; the number is at least 1 and at most `total`. -/
theorem selected_count_policy (cm : CaseMap) (text : JSString) (lengthKey : Option JSString)
    (h : 1 ≤ (splitSentences text).length) :
    let sentences := splitSentences text
    let total := sentences.length
    let p := if lengthKey = some (js "short") then 1
      else if lengthKey = some (js "long") then 6 else 3
    let parts := topSentences sentences (sortByScore (scoreSentences cm sentences)) (min p total)
    parts.length = min p total ∧ 1 ≤ parts.length ∧ parts.length ≤ total ∧
    (∀ style, (style = none ∨ style = some (js "concise")) →
      ∃ first rest, parts = first :: rest ∧
        makeSummary cm text style lengthKey =
          some (sentenceToLine cm first ++
            (if join (js " ") (rest.map (sentenceToLine cm)) ≠ []
              then js " " ++ join (js " ") (rest.map (sentenceToLine cm)) else []))) ∧
    makeSummary cm text (some (js "executive")) lengthKey =
      some (join (js "\n") (parts.map (executiveItem cm))) ∧
    (∀ style, style ∉ [js "concise", js "executive", js "action", js "detailed"] →
      makeSummary cm text (some style) lengthKey =
        some (join (js " ") (parts.map (sentenceToLine cm)))) := by
  intro sentences total p parts
  have hp : 1 ≤ p := by
    show 1 ≤ (if lengthKey = some (js "short") then 1
      else if lengthKey = some (js "long") then 6 else 3)
    split
    · exact le_refl 1
    · split <;> decide
  have hlen : parts.length = min p total := by
    show (topSentences sentences _ (min p total)).length = min p total
    rw [topSentences_length, ranked_length]
    exact min_eq_left (min_le_right p total)
  have hne : sentences.length ≠ 0 := Nat.one_le_iff_ne_zero.mp h
  have hcount : min (max 1 (requestedCount (lengthKey.getD (js "medium")))) sentences.length
      = min p total := count_eq lengthKey total
  have hn : min (min p total) (max 1 (min p total)) = min p total :=
    min_eq_left (le_max_right 1 (min p total))
  refine ⟨hlen, ?_, ?_, ?_, ?_, ?_⟩
  · rw [hlen]; exact le_min hp h
  · rw [hlen]; exact min_le_right p total
  · intro style hstyle
    have hst : style.getD (js "concise") = js "concise" := by
      rcases hstyle with rfl | rfl <;> rfl
    obtain ⟨q, rest, hparts⟩ : ∃ q rest, topSentences (splitSentences text)
        (sortByScore (scoreSentences cm (splitSentences text))) (min p total) = q :: rest := by
      cases hparts : parts with
      | nil =>
        rw [hparts] at hlen
        have : 1 ≤ min p total := le_min hp h
        simp at hlen
        omega
      | cons q rest => exact ⟨q, rest, hparts⟩
    refine ⟨q, rest, hparts, ?_⟩
    simp only [makeSummary, hst, if_neg hne, if_true, hcount, hn]
    rw [hparts]
    cases rest with
    | nil => simp [conciseJoin, join]
    | cons r rest2 => rfl
  · simp only [makeSummary, Option.getD_some, if_neg hne, hcount]
    rfl
  · intro style hstyle
    simp only [List.mem_cons, List.mem_singleton, not_or, List.not_mem_nil, or_false] at hstyle
    obtain ⟨h1, h2, h3, h4⟩ := hstyle
    simp only [makeSummary, Option.getD_some, if_neg hne, hcount, if_neg h1, if_neg h2,
      if_neg h3, if_neg h4]

/-- C3 witness: three sentences and the length key `short` select exactly one sentence. -/
theorem selected_count_policy_witness :
    1 ≤ (splitSentences (js "The cat sat. The cat slept. Dogs bark loudly outside.")).length ∧
    (topSentences (splitSentences (js "The cat sat. The cat slept. Dogs bark loudly outside."))
      (sortByScore (scoreSentences asciiCase
        (splitSentences (js "The cat sat. The cat slept. Dogs bark loudly outside."))))
      (min 1 (splitSentences
        (js "The cat sat. The cat slept. Dogs bark loudly outside.")).length)).length
      = min 1 (splitSentences (js "The cat sat. The cat slept. Dogs bark loudly outside.")).length :=
  ⟨by decide, (selected_count_policy asciiCase
    (js "The cat sat. The cat slept. Dogs bark loudly outside.") (some (js "short"))
    (by decide)).1⟩

/-- C4 as stated fails: on the two-sentence text `Cat. Dog.` the detailed style selects two
sentences, not `clamp(count, 3, 5) = 3`, and fewer than three. -/
theorem detailed_count_counterexample :
    (topSentences (splitSentences (js "Cat. Dog."))
      (sortByScore (scoreSentences asciiCase (splitSentences (js "Cat. Dog."))))
      (min 5 (max 3 (min 3 (splitSentences (js "Cat. Dog.")).length)))).length = 2 ∧
    min 5 (max 3 (min 3 (splitSentences (js "Cat. Dog.")).length)) = 3 ∧
    makeSummary asciiCase (js "Cat. Dog.") (some (js "detailed")) none
      = some (js "Cat. Dog.") := by
  decide

/-- C4 amended: with at least one sentence the detailed style renders exactly
`min (clamp(count, 3, 5)) total` selected sentences, where `count = min p total`; that
number is at least 1 and at most 5, and it is at least 3 whenever the text has at least
three sentences. -/
theorem detailed_count (cm : CaseMap) (text : JSString) (lengthKey : Option JSString)
    (h : 1 ≤ (splitSentences text).length) :
    let sentences := splitSentences text
    let total := sentences.length
    let p := if lengthKey = some (js "short") then 1
      else if lengthKey = some (js "long") then 6 else 3
    let desired := min 5 (max 3 (min p total))
    let parts := topSentences sentences (sortByScore (scoreSentences cm sentences)) desired
    parts.length = min desired total ∧ 1 ≤ parts.length ∧ parts.length ≤ 5 ∧
    (3 ≤ total → 3 ≤ parts.length) ∧
    makeSummary cm text (some (js "detailed")) lengthKey =
      some (join (js " ") (parts.map (sentenceToLine cm))) := by
  intro sentences total p desired parts
  have hlen : parts.length = min desired total := by
    show (topSentences sentences _ desired).length = min desired total
    rw [topSentences_length, ranked_length]
  have hne : sentences.length ≠ 0 := Nat.one_le_iff_ne_zero.mp h
  have hcount : min (max 1 (requestedCount (lengthKey.getD (js "medium")))) sentences.length
      = min p total := count_eq lengthKey total
  have h1 : (1 : Nat) ≤ total := h
  have hd3 : 3 ≤ desired := le_min (by decide) (le_max_left 3 (min p total))
  have hd5 : desired ≤ 5 := min_le_left 5 _
  refine ⟨hlen, ?_, ?_, ?_, ?_⟩
  · rw [hlen]; exact le_min (le_trans (by decide) hd3) h1
  · rw [hlen]; exact le_trans (min_le_left _ _) hd5
  · intro h3; rw [hlen]; exact le_min hd3 h3
  · simp only [makeSummary, Option.getD_some, if_neg hne, hcount]
    rfl

/-- C4 witness: a two-sentence text in detailed style with the length key `long`. -/
theorem detailed_count_witness :
    1 ≤ (splitSentences (js "Cat. Dog.")).length ∧
    makeSummary asciiCase (js "Cat. Dog.") (some (js "detailed")) (some (js "long")) =
      some (join (js " ") ((topSentences (splitSentences (js "Cat. Dog."))
        (sortByScore (scoreSentences asciiCase (splitSentences (js "Cat. Dog."))))
        (min 5 (max 3 (min 6 (splitSentences (js "Cat. Dog.")).length)))).map
        (sentenceToLine asciiCase))) :=
  ⟨by decide, (detailed_count asciiCase (js "Cat. Dog.") (some (js "long")) (by decide)).2.2.2.2⟩

/-- C6 as stated fails: the line of `longWord` has 122 code units and a space at index
116, so the bullet carries 116 code units before the ellipsis (117 after the marker),
not the first 117 code units of the line. -/
theorem executive_truncation_counterexample :
    splitSentences longWord = [longWord] ∧
    120 < (sentenceToLine asciiCase longWord).length ∧
    makeSummary asciiCase longWord (some (js "executive")) none =
      some (js "• " ++ (88 :: List.replicate 115 120) ++ js "…") ∧
    makeSummary asciiCase longWord (some (js "executive")) none ≠
      some (js "• " ++ (sentenceToLine asciiCase longWord).take 117 ++ js "…") := by
  decide

/-- C6 amended: in the executive style the output is the line-feed join of one bullet per
selected sentence; the bullet is the marker followed by the line `L = sentenceToLine s`
when `L` has at most 120 code units, and otherwise by `trim` of the first 117 code units
of `L` followed by the ellipsis. The truncated part has at most 118 code units, and it is
exactly the first 117 code units plus the ellipsis when those 117 neither start nor end
with whitespace. -/
theorem executive_lines (cm : CaseMap) (text : JSString) (lengthKey : Option JSString) :
    let sentences := splitSentences text
    let p := if lengthKey = some (js "short") then 1
      else if lengthKey = some (js "long") then 6 else 3
    let parts := topSentences sentences (sortByScore (scoreSentences cm sentences))
      (min p sentences.length)
    makeSummary cm text (some (js "executive")) lengthKey =
      some (join (js "\n") (parts.map (fun s =>
        js "• " ++ (if (sentenceToLine cm s).length ≤ 120 then sentenceToLine cm s
          else trim ((sentenceToLine cm s).take 117) ++ js "…")))) ∧
    (∀ s, (trim ((sentenceToLine cm s).take 117) ++ js "…").length ≤ 118) ∧
    (∀ s, (∀ c, ((sentenceToLine cm s).take 117).head? = some c → isSpace c = false) →
      (∀ c, ((sentenceToLine cm s).take 117).getLast? = some c → isSpace c = false) →
      trim ((sentenceToLine cm s).take 117) ++ js "…"
        = (sentenceToLine cm s).take 117 ++ js "…") := by
  intro sentences p parts
  refine ⟨?_, ?_, ?_⟩
  · have hitem : (fun s => js "• " ++ (if (sentenceToLine cm s).length ≤ 120
          then sentenceToLine cm s
          else trim ((sentenceToLine cm s).take 117) ++ js "…")) = executiveItem cm := by
      funext s
      unfold executiveItem
      by_cases hl : (sentenceToLine cm s).length ≤ 120
      · simp only [if_pos hl, if_neg (not_lt.mpr hl)]
      · simp only [if_neg hl, if_pos (not_le.mp hl)]
    rw [hitem]
    by_cases hne : sentences.length = 0
    · have hnil : sentences = [] := List.length_eq_zero.mp hne
      have hparts : parts = [] := by
        apply List.length_eq_zero.mp
        show (topSentences sentences _ _).length = 0
        rw [topSentences_length, ranked_length, hne]
        simp
      have hs : splitSentences text = [] := hnil
      rw [hparts]
      simp [makeSummary, hs, join]
    · have hcount : min (max 1 (requestedCount (lengthKey.getD (js "medium"))))
          sentences.length = min p sentences.length := count_eq lengthKey sentences.length
      simp only [makeSummary, Option.getD_some, if_neg hne, hcount]
      rfl
  · intro s
    have h1 : (trim ((sentenceToLine cm s).take 117)).length ≤ 117 :=
      le_trans (trim_length_le _) (by rw [List.length_take]; exact min_le_left _ _)
    have h2 : (js "…").length = 1 := by decide
    rw [List.length_append, h2]
    omega
  · intro s h0 h1
    rw [trim_eq_self h0 h1]

/-- C6 witness: a 122-unit line without whitespace at either end of its first 117 units is
cut to exactly those 117 units plus the ellipsis. -/
theorem executive_lines_witness :
    (∀ c, ((sentenceToLine asciiCase (List.replicate 121 120 ++ js ".")).take 117).head?
      = some c → isSpace c = false) ∧
    (∀ c, ((sentenceToLine asciiCase (List.replicate 121 120 ++ js ".")).take 117).getLast?
      = some c → isSpace c = false) ∧
    trim ((sentenceToLine asciiCase (List.replicate 121 120 ++ js ".")).take 117) ++ js "…"
      = (sentenceToLine asciiCase (List.replicate 121 120 ++ js ".")).take 117 ++ js "…" :=
  ⟨by decide, by decide,
    (executive_lines asciiCase (List.replicate 121 120 ++ js ".") none).2.2
      (List.replicate 121 120 ++ js ".")
      (by decide) (by decide)⟩

/-- C7: the code removes a quote at the second position of the cleaned sentence and keeps
a leading one: the apostrophe of a contraction is lost, a leading quotation mark stays and
the letter after it is not uppercased. -/
theorem sentenceToLine_quote_position :
    sentenceToLine asciiCase (js "I'm here.") = js "Im here." ∧
    sentenceToLine asciiCase (js "\"hello\" he said.") = js "\"hello\" he said." ∧
    sentenceToLine asciiCase (js "it's late.") = js "It's late." := by
  decide

/-- C2: on `Cat. Dog. Cat.` the ranking is `Cat.`, `Cat.`, `Dog.`; `indexOf` maps both
copies of `Cat.` to position 0, so `topSentences(3)` returns `Cat.`, `Cat.`, `Dog.`, which
is not a subsequence of the sentences in document order. -/
theorem topSentences_duplicate_order :
    splitSentences (js "Cat. Dog. Cat.") = [js "Cat.", js "Dog.", js "Cat."] ∧
    topSentences (splitSentences (js "Cat. Dog. Cat."))
      (sortByScore (scoreSentences asciiCase (splitSentences (js "Cat. Dog. Cat.")))) 3
      = [js "Cat.", js "Cat.", js "Dog."] ∧
    ¬ List.Sublist (topSentences (splitSentences (js "Cat. Dog. Cat."))
        (sortByScore (scoreSentences asciiCase (splitSentences (js "Cat. Dog. Cat.")))) 3)
      (splitSentences (js "Cat. Dog. Cat.")) ∧
    makeSummary asciiCase (js "Cat. Dog. Cat.") (some (js "concise")) (some (js "medium"))
      = some (js "Cat. Cat. Dog.") := by
  decide

/-- C5 as stated fails: the worked example does not return a cat sentence, and neither cat
sentence scores strictly higher than `Dogs bark loudly outside.` (the dog sentence scores
at least as high as each of them). -/
theorem worked_example_counterexample :
    makeSummary asciiCase (js "The cat sat. The cat slept. Dogs bark loudly outside.")
      (some (js "concise")) (some (js "short")) ≠ some (js "The cat sat.") ∧
    makeSummary asciiCase (js "The cat sat. The cat slept. Dogs bark loudly outside.")
      (some (js "concise")) (some (js "short")) ≠ some (js "The cat slept.") ∧
    scoreSentences asciiCase
      (splitSentences (js "The cat sat. The cat slept. Dogs bark loudly outside.")) =
      [⟨js "The cat sat.", 3, 3⟩, ⟨js "The cat slept.", 3, 3⟩,
        ⟨js "Dogs bark loudly outside.", 4, 4⟩] ∧
    scoreGe ⟨js "Dogs bark loudly outside.", 4, 4⟩ ⟨js "The cat sat.", 3, 3⟩ = true ∧
    scoreGe ⟨js "Dogs bark loudly outside.", 4, 4⟩ ⟨js "The cat slept.", 3, 3⟩ = true := by
  decide

/-- C5 amended: the worked example returns the single sentence `Dogs bark loudly
outside.`: it scores `4 / √4 = 2`, strictly above the `3 / √3` of either cat sentence, so it
is first in the ranking. -/
theorem worked_example :
    makeSummary asciiCase (js "The cat sat. The cat slept. Dogs bark loudly outside.")
      (some (js "concise")) (some (js "short")) = some (js "Dogs bark loudly outside.") ∧
    sortByScore (scoreSentences asciiCase
      (splitSentences (js "The cat sat. The cat slept. Dogs bark loudly outside."))) =
      [⟨js "Dogs bark loudly outside.", 4, 4⟩, ⟨js "The cat sat.", 3, 3⟩,
        ⟨js "The cat slept.", 3, 3⟩] ∧
    scoreGe ⟨js "The cat sat.", 3, 3⟩ ⟨js "Dogs bark loudly outside.", 4, 4⟩ = false ∧
    scoreGe ⟨js "The cat slept.", 3, 3⟩ ⟨js "Dogs bark loudly outside.", 4, 4⟩ = false := by
  decide

/-- C1 as stated fails, in each of four ways. On the three-sentence example the fallback
returns the sentences in score order, the server (concise, default length) in document
order. On `Dogs bark loudly. Cat.`, where ranking and document order agree, the executive
and the action style return bullet lists, the fallback the plain sentences. On
`dogs bark loudly. cat.` the server capitalizes each sentence, the fallback does not. -/
theorem local_remote_counterexample :
    (localSummarize asciiCase (js "The cat sat. The cat slept. Dogs bark loudly outside.")
        = js "Dogs bark loudly outside. The cat sat. The cat slept." ∧
      makeSummary asciiCase (js "The cat sat. The cat slept. Dogs bark loudly outside.")
        (some (js "concise")) none
        = some (js "The cat sat. The cat slept. Dogs bark loudly outside.") ∧
      makeSummary asciiCase (js "The cat sat. The cat slept. Dogs bark loudly outside.")
        (some (js "concise")) none
        ≠ some (localSummarize asciiCase
            (js "The cat sat. The cat slept. Dogs bark loudly outside."))) ∧
    (localSummarize asciiCase (js "Dogs bark loudly. Cat.") = js "Dogs bark loudly. Cat." ∧
      makeSummary asciiCase (js "Dogs bark loudly. Cat.") (some (js "executive")) none
        = some (js "• Dogs bark loudly.\n• Cat.") ∧
      makeSummary asciiCase (js "Dogs bark loudly. Cat.") (some (js "action")) none
        = some (js "- Dogs bark loudly.\n- Cat.\n\nSuggested next steps:\n- Consider: Dogs bark loudly.\n- Consider: Cat.") ∧
      makeSummary asciiCase (js "Dogs bark loudly. Cat.") (some (js "executive")) none
        ≠ some (localSummarize asciiCase (js "Dogs bark loudly. Cat.")) ∧
      makeSummary asciiCase (js "Dogs bark loudly. Cat.") (some (js "action")) none
        ≠ some (localSummarize asciiCase (js "Dogs bark loudly. Cat."))) ∧
    (localSummarize asciiCase (js "dogs bark loudly. cat.") = js "dogs bark loudly. cat." ∧
      makeSummary asciiCase (js "dogs bark loudly. cat.") (some (js "concise")) none
        = some (js "Dogs bark loudly. Cat.") ∧
      makeSummary asciiCase (js "dogs bark loudly. cat.") (some (js "concise")) none
        ≠ some (localSummarize asciiCase (js "dogs bark loudly. cat."))) := by
  decide

/-- C1 amended: `localSummarize` returns the sentences of the first three entries of the
score ranking, unformatted and in ranking order, joined by a space. For a style other than
executive and action and no length key, the server returns that same string provided these
entries already stand in index order and `sentenceToLine` leaves each of their sentences
unchanged. -/
theorem local_matches_remote (cm : CaseMap) (text : JSString) (style : Option JSString)
    (hexec : style ≠ some (js "executive")) (haction : style ≠ some (js "action"))
    (hord : ((sortByScore (scoreSentences cm (splitSentences text))).take 3).Sorted
      (fun a b => indexOf (splitSentences text) a.s ≤ indexOf (splitSentences text) b.s))
    (hfix : ∀ x ∈ (sortByScore (scoreSentences cm (splitSentences text))).take 3,
      sentenceToLine cm x.s = x.s) :
    localSummarize cm text = join (js " ")
      (((sortByScore (scoreSentences cm (splitSentences text))).take 3).map (fun x => x.s)) ∧
    makeSummary cm text style none = some (localSummarize cm text) := by
  by_cases hne : (splitSentences text).length = 0
  · have hs : splitSentences text = [] := List.length_eq_zero.mp hne
    constructor
    · simp [localSummarize, hs, scoreSentences, sortByScore, join]
    · simp [makeSummary, localSummarize, hs]
  · refine ⟨by simp only [localSummarize, if_neg hne], ?_⟩
    have hpos : 1 ≤ (splitSentences text).length := Nat.one_le_iff_ne_zero.mpr hne
    have hlocal : localSummarize cm text = join (js " ")
        (((sortByScore (scoreSentences cm (splitSentences text))).take 3).map (fun x => x.s)) := by
      simp only [localSummarize, if_neg hne]
    have hcount : min (max 1 (requestedCount ((none : Option JSString).getD (js "medium"))))
        (splitSentences text).length = min 3 (splitSentences text).length := by
      rw [count_eq]; rfl
    have htop : topSentences (splitSentences text)
        (sortByScore (scoreSentences cm (splitSentences text)))
        (min 3 (splitSentences text).length) =
        ((sortByScore (scoreSentences cm (splitSentences text))).take 3).map (fun x => x.s) := by
      have hlen := ranked_length cm (splitSentences text)
      have htake := take_min_length (sortByScore (scoreSentences cm (splitSentences text))) 3
      rw [hlen] at htake
      rw [topSentences_of_sorted _ _ _ (by rw [htake]; exact hord), htake]
    have hfixB : ∀ b ∈ ((sortByScore (scoreSentences cm (splitSentences text))).take 3).map
        (fun x => x.s), sentenceToLine cm b = b := by
      intro b hb
      obtain ⟨x, hx, rfl⟩ := List.mem_map.mp hb
      exact hfix x hx
    have hnilB : ∀ b ∈ ((sortByScore (scoreSentences cm (splitSentences text))).take 3).map
        (fun x => x.s), b ≠ [] := by
      intro b hb
      obtain ⟨x, hx, rfl⟩ := List.mem_map.mp hb
      exact splitSentences_ne_nil (ranked_mem (List.mem_of_mem_take hx))
    have hneB : ((sortByScore (scoreSentences cm (splitSentences text))).take 3).map
        (fun x => x.s) ≠ [] := by
      intro hB
      have hl := congrArg List.length hB
      rw [List.length_map, List.length_take, ranked_length, List.length_nil] at hl
      have h3 : 1 ≤ min 3 (splitSentences text).length := le_min (by decide) hpos
      omega
    have hmapB : (((sortByScore (scoreSentences cm (splitSentences text))).take 3).map
        (fun x => x.s)).map (sentenceToLine cm) =
        ((sortByScore (scoreSentences cm (splitSentences text))).take 3).map (fun x => x.s) := by
      calc _ = (((sortByScore (scoreSentences cm (splitSentences text))).take 3).map
            (fun x => x.s)).map id := List.map_congr_left hfixB
        _ = _ := List.map_id _
    have hn : min (min 3 (splitSentences text).length) (max 1 (min 3 (splitSentences text).length))
        = min 3 (splitSentences text).length := min_eq_left (le_max_right _ _)
    have hdes : min 5 (max 3 (min 3 (splitSentences text).length)) = 3 := by
      rw [max_eq_left (min_le_left _ _)]; rfl
    have hconcise : ∀ st : Option JSString, st.getD (js "concise") = js "concise" →
        makeSummary cm text st none = some (localSummarize cm text) := by
      intro st hst
      simp only [makeSummary, hst, if_neg hne, if_true, hcount, hn, htop]
      rw [conciseJoin_eq_join cm _ hneB hfixB hnilB, hlocal]
    cases style with
    | none => exact hconcise none rfl
    | some st =>
      by_cases h1 : st = js "concise"
      · exact hconcise (some st) (by rw [h1]; rfl)
      · have h2 : st ≠ js "executive" := fun h => hexec (by rw [h])
        have h3 : st ≠ js "action" := fun h => haction (by rw [h])
        by_cases h4 : st = js "detailed"
        · have htop3 : topSentences (splitSentences text)
              (sortByScore (scoreSentences cm (splitSentences text))) 3 =
              ((sortByScore (scoreSentences cm (splitSentences text))).take 3).map
                (fun x => x.s) := topSentences_of_sorted _ _ _ hord
          simp only [makeSummary, Option.getD_some, if_neg hne, hcount, if_neg h1, if_neg h2,
            if_neg h3, if_pos h4, hdes, htop3, hmapB, hlocal]
        · simp only [makeSummary, Option.getD_some, if_neg hne, hcount, if_neg h1, if_neg h2,
            if_neg h3, if_neg h4, htop, hmapB, hlocal]

/-- C1 witness: on `Dogs bark loudly. Cat.` the ranking is the document order and both
sentences are fixed by `sentenceToLine`. -/
theorem local_matches_remote_witness :
    (some (js "detailed") ≠ some (js "executive") ∧ some (js "detailed") ≠ some (js "action")) ∧
    ((sortByScore (scoreSentences asciiCase (splitSentences (js "Dogs bark loudly. Cat.")))).take
      3).Sorted (fun a b => indexOf (splitSentences (js "Dogs bark loudly. Cat.")) a.s
        ≤ indexOf (splitSentences (js "Dogs bark loudly. Cat.")) b.s) ∧
    (∀ x ∈ (sortByScore (scoreSentences asciiCase
        (splitSentences (js "Dogs bark loudly. Cat.")))).take 3,
      sentenceToLine asciiCase x.s = x.s) ∧
    localSummarize asciiCase (js "Dogs bark loudly. Cat.") = join (js " ")
      (((sortByScore (scoreSentences asciiCase
        (splitSentences (js "Dogs bark loudly. Cat.")))).take 3).map (fun x => x.s)) ∧
    makeSummary asciiCase (js "Dogs bark loudly. Cat.") (some (js "detailed")) none
      = some (localSummarize asciiCase (js "Dogs bark loudly. Cat.")) :=
  ⟨by decide, by decide, by decide,
    local_matches_remote asciiCase (js "Dogs bark loudly. Cat.")
      (some (js "detailed")) (by decide) (by decide) (by decide) (by decide)⟩

/-- C8: `clean` is idempotent: cleaning an already cleaned string changes nothing. -/
theorem clean_idempotent (s : JSString) : clean (clean s) = clean s := by
  obtain ⟨hlead, hsp⟩ := clean_shape s
  have htrim : trim (clean s) = clean s := trim_eq_self hlead (spaced_last isPunct _ hsp)
  have hcol : collapseSpaces (clean s) = clean s := collapseSpaces_of_spaced isPunct _ hsp
  have hdrop : dropSpaceBeforePunct (clean s) = clean s := dropSpaceBeforePunct_of_spaced _ hsp
  calc clean (clean s)
      = dropSpaceBeforePunct (collapseSpaces (trim (clean s))) := rfl
    _ = dropSpaceBeforePunct (collapseSpaces (clean s)) := by rw [htrim]
    _ = dropSpaceBeforePunct (clean s) := by rw [hcol]
    _ = clean s := hdrop

/-- C10: with at least one sentence and no action keyword in any sentence, the action
style outputs the first `count` ranked sentences as `- ` bullets, an empty line, the line
`Suggested next steps:`, and then the steps: the distinct rewrites of the three top-ranked
sentences, a non-empty list of at most three pairwise different lines. -/
theorem action_fallback (cm : CaseMap) (text : JSString) (lengthKey : Option JSString)
    (h1 : 1 ≤ (splitSentences text).length)
    (h2 : ∀ s ∈ splitSentences text, ∀ k ∈ actionKeywords,
      includes (cm.toLowerCase s) k = false) :
    let sentences := splitSentences text
    let total := sentences.length
    let p := if lengthKey = some (js "short") then 1
      else if lengthKey = some (js "long") then 6 else 3
    let ranked := sortByScore (scoreSentences cm sentences)
    let bullets := (ranked.take (min p total)).map (fun x => js "- " ++ sentenceToLine cm x.s)
    let steps := (uniq (((ranked.take (min 3 total)).map (fun x => x.s)).map (nextStep cm))).take 3
    makeSummary cm text (some (js "action")) lengthKey =
      some (join (js "\n") (bullets ++ [[], js "Suggested next steps:"] ++ steps)) ∧
    bullets.length = min p total ∧
    steps ≠ [] ∧ steps.length ≤ 3 ∧ steps.Nodup := by
  intro sentences total p ranked bullets steps
  have hne : sentences.length ≠ 0 := Nat.one_le_iff_ne_zero.mp h1
  have hp : 1 ≤ p := by
    show 1 ≤ (if lengthKey = some (js "short") then 1
      else if lengthKey = some (js "long") then 6 else 3)
    split
    · exact le_refl 1
    · split <;> decide
  have hcount : min (max 1 (requestedCount (lengthKey.getD (js "medium")))) sentences.length
      = min p total := count_eq lengthKey total
  have hc1 : 1 ≤ min p total := le_min hp h1
  have hmax : max 1 (min p total) = min p total := max_eq_right hc1
  have hcand : List.filter (fun t : Scored =>
      actionKeywords.any (fun k => includes (cm.toLowerCase t.s) k)) ranked = [] := by
    rw [List.filter_eq_nil_iff]
    intro x hx hany
    obtain ⟨k, hk, hinc⟩ := List.any_eq_true.mp hany
    have := h2 x.s (ranked_mem hx) k hk
    rw [this] at hinc
    exact Bool.false_ne_true hinc
  have hrl : ranked.length = total := ranked_length cm sentences
  refine ⟨?_, ?_, ?_, ?_, ?_⟩
  · have hc : List.filter (fun t : Scored =>
        actionKeywords.any (fun k => includes (cm.toLowerCase t.s) k))
        (sortByScore (scoreSentences cm (splitSentences text))) = [] := hcand
    simp only [makeSummary, Option.getD_some, if_neg hne, hcount, hmax, hc, List.length_nil,
      ne_eq, not_true_eq_false, if_false, List.take_take, min_self]
    rfl
  · show ((ranked.take (min p total)).map _).length = min p total
    rw [List.length_map, List.length_take, hrl]
    exact min_eq_left (min_le_right p total)
  · show (uniq _).take 3 ≠ []
    intro h
    rcases List.take_eq_nil_iff.mp h with h3 | hu
    · exact absurd h3 (by decide)
    · refine uniq_ne_nil ?_ hu
      intro hm
      have hl := congrArg List.length hm
      rw [List.length_map, List.length_map, List.length_take, hrl, List.length_nil] at hl
      have : 1 ≤ min 3 total := le_min (by decide) h1
      omega
  · show ((uniq _).take 3).length ≤ 3
    rw [List.length_take]
    exact min_le_left _ _
  · exact (uniq_nodup _).sublist (List.take_sublist _ _)

/-- C10 witness: the three-sentence example contains no action keyword. -/
theorem action_fallback_witness :
    (1 ≤ (splitSentences (js "The cat sat. The cat slept. Dogs bark loudly outside.")).length ∧
      ∀ s ∈ splitSentences (js "The cat sat. The cat slept. Dogs bark loudly outside."),
        ∀ k ∈ actionKeywords, includes (asciiCase.toLowerCase s) k = false) ∧
    makeSummary asciiCase (js "The cat sat. The cat slept. Dogs bark loudly outside.")
      (some (js "action")) none =
      some (js "- Dogs bark loudly outside.\n- The cat sat.\n- The cat slept.\n\nSuggested next steps:\n- Consider: Dogs bark loudly outside.\n- Consider: The cat sat.\n- Consider: The cat slept.") :=
  ⟨⟨by decide, by decide⟩,
    (action_fallback asciiCase (js "The cat sat. The cat slept. Dogs bark loudly outside.") none
      (by decide) (by decide)).1.trans (by decide)⟩

end Summarizer
